import Mathlib

/-!
# Verification of the XBRL financial lookup pipeline

Shallow embedding of the core pipeline of the repository
(`parsers/edgar_parser.py`, `database/db_manager.py`, `main_app.py`):
the EDGAR fetch client, the XBRL fact extractor, the fact store upsert,
the legacy search engine and the production trend query, together with
theorems settling the frozen specification claims.

Text is modelled as `String`; comparison and case folding are implemented
on the underlying character lists so that all predicates are executable
and kernel-decidable.  Numeric values are modelled as `ℚ` (the reported
values are decimal literals; no claim depends on binary floating point
rounding).  Wall-clock effects (`time.sleep`, timestamps) and SQLite
autoincrement ids are not part of the modelled state.
-/

/-- ASCII lower casing of one character (the fragment of `str.lower` /
SQLite `LOWER` exercised by the data in this repository). -/
def lowerC (c : Char) : Char :=
  if 65 ≤ c.toNat ∧ c.toNat ≤ 90 then Char.ofNat (c.toNat + 32) else c

/-- `s.lower()` on the character list of a string. -/
def lowerStr (s : String) : List Char := s.data.map lowerC

/-- `nee` is a contiguous leading block of the second list. -/
def isPrefixB : List Char → List Char → Bool
  | [], _ => true
  | _ :: _, [] => false
  | a :: as, b :: bs => a == b && isPrefixB as bs

/-- `nee` occurs contiguously inside the second list (Python `in` on
strings, SQLite `LIKE` with `%` on both sides). -/
def isInfixB (nee : List Char) : List Char → Bool
  | [] => nee.isEmpty
  | c :: t => isPrefixB nee (c :: t) || isInfixB nee t

/-- Case-insensitive substring test: `term` occurs inside `field`
(`LIKE` is case-insensitive for ASCII in SQLite; the Python ranking code
lowercases both sides explicitly). -/
def likeMatch (field term : String) : Bool := isInfixB (lowerStr term) (lowerStr field)

/-- Lexicographic order on strings by code point (Python `<`, `>`):
the linear order on the underlying character lists. -/
def strLtB (a b : String) : Bool := decide (a.data < b.data)

/-- First value bound to `k` in an association list (Python `dict`
lookup; the insertion functions below keep keys unique). -/
def alistFind? {α : Type} (l : List (String × α)) (k : String) : Option α :=
  match l with
  | [] => Option.none
  | (k', v) :: rest => if k' = k then some v else alistFind? rest k

/-- Bind `k` to `v`: replace the existing binding in place, else append
(Python `d[k] = v` insertion-order semantics). -/
def alistInsert {α : Type} (l : List (String × α)) (k : String) (v : α) : List (String × α) :=
  match l with
  | [] => [(k, v)]
  | (k', v') :: rest =>
      if k' = k then (k, v) :: rest else (k', v') :: alistInsert rest k v

/-- Keep the first element for each key produced by `key`, drop later
duplicates (pandas `drop_duplicates`, SQL `DISTINCT`). -/
def dedupBy {α β : Type} [DecidableEq β] (key : α → β) (l : List α) : List α :=
  go [] l
where
  go (seen : List β) : List α → List α
  | [] => []
  | x :: xs => if key x ∈ seen then go seen xs else x :: go (key x :: seen) xs

/-- Insert `x` behind every element that is not strictly after it, so that
equal sort keys keep their arrival order. -/
def insertSorted {α : Type} (before : α → α → Bool) (x : α) : List α → List α
  | [] => [x]
  | y :: ys => if before x y then x :: y :: ys else y :: insertSorted before x ys

/-- Stable sort: repeatedly insert into an already sorted accumulator.
`before a b = true` means `a` must be placed strictly before `b`. -/
def stableSortBy {α : Type} (before : α → α → Bool) (l : List α) : List α :=
  l.foldl (fun acc x => insertSorted before x acc) []

/-- Word accumulator for `pyWords`: `cur` holds the characters of the
word in progress, reversed. -/
def pyWordsAux : List Char → List Char → List String
  | [], cur => if cur.isEmpty then [] else [String.mk cur.reverse]
  | c :: rest, cur =>
      if c.isWhitespace then
        if cur.isEmpty then pyWordsAux rest []
        else String.mk cur.reverse :: pyWordsAux rest []
      else pyWordsAux rest (c :: cur)

/-- Python `str.split()`: split on whitespace runs, no empty words. -/
def pyWords (s : String) : List String := pyWordsAux s.data []

/-- Digit list to number, most significant first. -/
def digitsVal (l : List Char) : Nat := l.foldl (fun a c => 10 * a + (c.toNat - 48)) 0

/-- Python `int(s)` on the numeral fragment (optional sign, then decimal
digits); anything else raises `ValueError`, modelled as `none`. -/
def pyInt? (s : String) : Option Int :=
  let core (cs : List Char) (neg : Bool) : Option Int :=
    if cs ≠ [] ∧ cs.all Char.isDigit then
      some (if neg then -(digitsVal cs : Int) else (digitsVal cs : Int))
    else Option.none
  match s.data with
  | '-' :: cs => core cs true
  | '+' :: cs => core cs false
  | cs => core cs false

/-- A JSON scalar as found in a period entry's `val` field. -/
inductive PyVal where
  | num (q : ℚ)
  | str (s : String)
  | boolv (b : Bool)
  | null
  | other
deriving DecidableEq, Repr

/-- Python `float(s)` on the plain decimal-literal fragment
(optional sign, digits, optional fraction); other strings raise
`ValueError`, modelled as `none`. -/
def parseFloatLit? (s : String) : Option ℚ :=
  let core (cs : List Char) (neg : Bool) : Option ℚ :=
    let ip := cs.takeWhile Char.isDigit
    let rest := cs.dropWhile Char.isDigit
    let build (v : ℚ) : Option ℚ := some (if neg then -v else v)
    match rest with
    | [] => if ip = [] then Option.none else build (digitsVal ip)
    | '.' :: fr =>
        if fr.all Char.isDigit ∧ (ip ≠ [] ∨ fr ≠ []) then
          build ((digitsVal ip : ℚ) + (digitsVal fr : ℚ) / ((10 : ℚ) ^ fr.length))
        else Option.none
    | _ => Option.none
  match s.data with
  | '-' :: cs => core cs true
  | '+' :: cs => core cs false
  | cs => core cs false

/-- Python `float(v)` over the JSON scalars above: numbers pass through,
booleans coerce to 1/0, numeric strings parse, everything else raises
(`ValueError`/`TypeError`), modelled as `none`. -/
def pyFloat? (v : PyVal) : Option ℚ :=
  match v with
  | PyVal.num q => some q
  | PyVal.str s => parseFloatLit? s
  | PyVal.boolv b => some (if b then 1 else 0)
  | PyVal.null => Option.none
  | PyVal.other => Option.none

/-! ## Data model of the extractor (`parsers/edgar_parser.py`) -/

/-- `CompanyFact` dataclass: one flat, typed financial fact. -/
structure CompanyFact where
  cik : String
  company_name : String
  tag : String
  label : String
  description : String
  value : ℚ
  unit : String
  end_date : String
  form_type : String
  filed_date : String
  accession_number : String
  sec_url : String
deriving DecidableEq, Repr

/-- One period entry of a tag's unit list; `Option` marks absent keys. -/
structure PeriodEntry where
  val : Option PyVal
  endDate : Option String
  form : Option String
  filed : Option String
  accn : Option String
deriving DecidableEq, Repr

/-- A tag's payload: label, description and per-unit entry lists. -/
structure TagData where
  label : Option String
  description : Option String
  units : List (String × List PeriodEntry)
deriving DecidableEq, Repr

/-- The `facts` object of an EDGAR company-facts document, restricted to
the two namespaces the processor reads (`us-gaap` and `dei`; all other
namespaces are ignored by the code and therefore not modelled). -/
structure FactsSection where
  usGaap : List (String × TagData)
  dei : List (String × TagData)
deriving DecidableEq, Repr

/-- A raw EDGAR company-facts document. -/
structure RawDoc where
  entityName : Option String
  cik : Option String
  facts : Option FactsSection
deriving DecidableEq, Repr

/-- `XBRLProcessor.key_financial_tags`: tag → preferred label. -/
def key_financial_tags : List (String × String) :=
  [ ("Revenues", "Total Revenue"),
    ("SalesRevenueNet", "Net Sales"),
    ("RevenueFromContractWithCustomerExcludingAssessedTax", "Revenue from Contracts"),
    ("Assets", "Total Assets"),
    ("AssetsCurrent", "Current Assets"),
    ("AssetsNoncurrent", "Non-current Assets"),
    ("CashAndCashEquivalentsAtCarryingValue", "Cash and Cash Equivalents"),
    ("Liabilities", "Total Liabilities"),
    ("LiabilitiesCurrent", "Current Liabilities"),
    ("StockholdersEquity", "Stockholders Equity"),
    ("CostOfGoodsAndServicesSold", "Cost of Goods Sold"),
    ("GrossProfit", "Gross Profit"),
    ("OperatingIncomeLoss", "Operating Income"),
    ("NetIncomeLoss", "Net Income"),
    ("EarningsPerShareBasic", "Basic EPS"),
    ("EarningsPerShareDiluted", "Diluted EPS"),
    ("NetCashProvidedByUsedInOperatingActivities", "Operating Cash Flow"),
    ("NetCashProvidedByUsedInInvestingActivities", "Investing Cash Flow"),
    ("NetCashProvidedByUsedInFinancingActivities", "Financing Cash Flow") ]

/-- The two DEI tags the extractor accepts. -/
def dei_tags : List String :=
  ["EntityCommonStockSharesOutstanding", "EntityPublicFloat"]

/-- `cik.lstrip(;0;)` — drop leading zero characters. -/
def stripLeadingZeros (s : String) : String :=
  String.mk (s.data.dropWhile (fun c => c = '0'))

/-- `accession_number.replace(-, )` — delete dash characters. -/
def removeDashes (s : String) : String :=
  String.mk (s.data.filter (fun c => c ≠ '-'))

/-- `XBRLProcessor._build_sec_url`. -/
def build_sec_url (cik accession_number : String) : String :=
  if cik = "" ∨ accession_number = "" then ""
  else
    "https://www.sec.gov/ix?doc=/Archives/edgar/data/"
      ++ stripLeadingZeros cik ++ "/" ++ removeDashes accession_number ++ "/"
      ++ accession_number ++ ".htm"

/-- Body of the inner entry loop of `_process_financial_tag`: build one
`CompanyFact` from a period entry, or skip it (`none`) when the form type
is not 10-K/10-Q or `float(entry.get(val, 0))` raises. -/
def entryFact? (cik company_name tag label description unitName : String)
    (entry : PeriodEntry) : Option CompanyFact :=
  let form_type := entry.form.getD ""
  if form_type = "10-K" ∨ form_type = "10-Q" then
    let accession := entry.accn.getD ""
    let sec_url := if accession = "" then "" else build_sec_url cik accession
    match pyFloat? (entry.val.getD (PyVal.num 0)) with
    | some v =>
        some { cik := cik, company_name := company_name, tag := tag,
               label := label, description := description, value := v,
               unit := unitName, end_date := entry.endDate.getD "",
               form_type := form_type, filed_date := entry.filed.getD "",
               accession_number := accession, sec_url := sec_url }
    | Option.none => Option.none
  else Option.none

/-- `XBRLProcessor._process_financial_tag`. -/
def process_financial_tag (cik company_name tag : String) (tag_data : TagData) :
    List CompanyFact :=
  let label := tag_data.label.getD ((alistFind? key_financial_tags tag).getD tag)
  let description := tag_data.description.getD ""
  tag_data.units.flatMap (fun ue =>
    ue.2.filterMap (entryFact? cik company_name tag label description ue.1))

/-- `XBRLProcessor.extract_financial_facts`.  The argument is `none` for
Python `None`; a document with no `facts` member also covers the empty
dict (both fail the `not company_data or facts not in company_data`
guard and return `[]`). -/
def extract_financial_facts (company_data : Option RawDoc) : List CompanyFact :=
  match company_data with
  | Option.none => []
  | some d =>
    match d.facts with
    | Option.none => []
    | some fs =>
      let company_name := d.entityName.getD "Unknown Company"
      let cik := d.cik.getD ""
      let gaap := fs.usGaap.flatMap (fun td =>
        if (alistFind? key_financial_tags td.1).isSome then
          process_financial_tag cik company_name td.1 td.2
        else [])
      let dei := fs.dei.flatMap (fun td =>
        if td.1 ∈ dei_tags then
          process_financial_tag cik company_name td.1 td.2
        else [])
      gaap ++ dei

/-- One update step of `get_latest_annual_data`: keep the stored fact
unless the incoming annual fact has a strictly later period end. -/
def latestStep (d : List (String × CompanyFact)) (fact : CompanyFact) :
    List (String × CompanyFact) :=
  if fact.form_type = "10-K" then
    match alistFind? d fact.tag with
    | Option.none => alistInsert d fact.tag fact
    | some cur =>
        if strLtB cur.end_date fact.end_date then alistInsert d fact.tag fact else d
  else d

/-- `XBRLProcessor.get_latest_annual_data`: the result dict, modelled as
an insertion-ordered association list. -/
def get_latest_annual_data (facts : List CompanyFact) : List (String × CompanyFact) :=
  facts.foldl latestStep []

/-! ## Disclosure client (`EdgarAPIClient.get_company_facts`)

The network is modelled as the finite trace of answers the remote service
gives to successive requests; each recursive call consumes the next
answer.  `time.sleep` and the shared rate-limit clock have no observable
effect on the returned value and are not modelled. -/

/-- One answer of the remote service to one request. -/
inductive FetchResponse where
  /-- HTTP 200 with a body that parses as JSON. -/
  | ok (doc : RawDoc)
  /-- HTTP 200 whose body fails to parse (`json.JSONDecodeError`). -/
  | okBadJson
  /-- Any non-200 HTTP status code (404, 429, 500, ...). -/
  | status (code : Nat)
  /-- `requests.exceptions.Timeout`. -/
  | timeout
  /-- `requests.exceptions.RequestException`. -/
  | netError
deriving DecidableEq, Repr

/-- `EdgarAPIClient.get_company_facts` over a response trace.  On a 429
the code sleeps and recursively calls itself, consuming the next
response; an exhausted trace is an aborted run, reported as `none`. -/
def get_company_facts : List FetchResponse → Option RawDoc
  | [] => Option.none
  | r :: rest =>
    match r with
    | FetchResponse.ok d => some d
    | FetchResponse.okBadJson => Option.none
    | FetchResponse.status code =>
        if code = 404 then Option.none
        else if code = 429 then get_company_facts rest
        else Option.none
    | FetchResponse.timeout => Option.none
    | FetchResponse.netError => Option.none

/-! ## Fact store (`ProductionDatabaseManager.store_company_facts`)

The two tables touched by the upsert are modelled as maps: the
`UNIQUE(cik, tag, end_date, form_type, accession_number)` constraint
together with `INSERT OR REPLACE` makes `financial_facts` a map from
that composite key to the remaining columns, and `companies` a map from
`cik` to the stored name.  Autoincrement row ids and the
`created_at`/`updated_at`/`last_updated` timestamps are bookkeeping
outside the modelled state. -/

/-- The composite natural key of `financial_facts`. -/
structure FactKey where
  cik : String
  tag : String
  end_date : String
  form_type : String
  accession_number : String
deriving DecidableEq, Repr

/-- The non-key columns written by the upsert. -/
structure FactCols where
  label : String
  description : String
  value : ℚ
  unit : String
  filed_date : String
  fiscal_year : Option Int
  sec_url : String
deriving DecidableEq, Repr

/-- Key of a `CompanyFact` in the store. -/
def factKey (f : CompanyFact) : FactKey :=
  { cik := f.cik, tag := f.tag, end_date := f.end_date,
    form_type := f.form_type, accession_number := f.accession_number }

/-- Fiscal year derivation of `store_company_facts`:
`int(fact.end_date[:4])` when `fact.end_date` is truthy, `None` when the
slice does not parse. -/
def fiscalYearOf (end_date : String) : Option Int :=
  if end_date = "" then Option.none
  else pyInt? (String.mk (end_date.data.take 4))

/-- Columns written for a `CompanyFact`. -/
def factCols (f : CompanyFact) : FactCols :=
  { label := f.label, description := f.description, value := f.value,
    unit := f.unit, filed_date := f.filed_date,
    fiscal_year := fiscalYearOf f.end_date, sec_url := f.sec_url }

/-- A keyed table as a map. -/
def Table (κ ν : Type) : Type := κ → Option ν

/-- `INSERT OR REPLACE` of one row. -/
def tableUpsert {κ ν : Type} [DecidableEq κ] (t : Table κ ν) (k : κ) (v : ν) :
    Table κ ν :=
  fun k' => if k' = k then some v else t k'

/-- Upsert a list of rows left to right. -/
def tableUpsertList {κ ν : Type} [DecidableEq κ] (t : Table κ ν)
    (ps : List (κ × ν)) : Table κ ν :=
  ps.foldl (fun t p => tableUpsert t p.1 p.2) t

/-- The store state touched by `store_company_facts`. -/
structure Store where
  companies : Table String String
  facts : Table FactKey FactCols

/-- First-occurrence order of the distinct cik values of a batch
(the iteration order of the Python grouping dict). -/
def cikOrder (facts : List CompanyFact) : List String :=
  dedupBy id (facts.map (fun f => f.cik))

/-- The facts of one company group, in batch order. -/
def cikGroup (facts : List CompanyFact) (cik : String) : List CompanyFact :=
  facts.filter (fun f => f.cik = cik)

/-- The company name recorded for a group: the name carried by the first
fact of the group (the grouping loop sets it on first encounter). -/
def groupName (facts : List CompanyFact) (cik : String) : String :=
  match cikGroup facts cik with
  | [] => ""
  | g :: _ => g.company_name

/-- Per-company body of `store_company_facts`: refresh the company row,
then upsert every fact of the group. -/
def storeCompanyStep (batch : List CompanyFact) (s : Store) (cik : String) : Store :=
  { companies := tableUpsert s.companies cik (groupName batch cik),
    facts := tableUpsertList s.facts
      ((cikGroup batch cik).map (fun f => (factKey f, factCols f))) }

/-- `ProductionDatabaseManager.store_company_facts` (with
`update_company_info = True`, its default): group the batch by cik, then
for each company refresh the company row and upsert its facts. -/
def store_company_facts (s : Store) (facts : List CompanyFact) : Store :=
  if facts = [] then s
  else (cikOrder facts).foldl (storeCompanyStep facts) s

/-! ## Legacy search layer (`main_app.py`: `DatabaseManager.search_line_items`,
`SearchEngine.smart_search`, `SearchEngine._rank_results`)

The SQLite tables are modelled as row lists in insertion order; the SQL
`ORDER BY` is modelled as a stable sort (tie order among equal sort keys
is not observable by any claim). -/

/-- A row of the legacy `financial_line_items` table. -/
structure LineItemRow where
  company_name : String
  ticker_symbol : String
  line_item_label : String
  xbrl_tag : String
  value : ℚ
  filing_date : String
  period_end_date : String
  form_type : String
  sec_url : String
  filing_year : Int
deriving DecidableEq, Repr

/-- A row of the `xbrl_taxonomy` table (the columns the search reads). -/
structure TaxonomyRow where
  xbrl_tag : String
  standard_label : String
  docText : String
  common_aliases : String
deriving DecidableEq, Repr

/-- The columns selected by `search_line_items`. -/
structure SearchRow where
  company_name : String
  ticker_symbol : String
  line_item_label : String
  xbrl_tag : String
  value : ℚ
  filing_date : String
  period_end_date : String
  form_type : String
  sec_url : String
  filing_year : Int
  standard_label : Option String
  docText : Option String
deriving DecidableEq, Repr

/-- `LEFT JOIN xbrl_taxonomy ON f.xbrl_tag = t.xbrl_tag` for one row
(`xbrl_tag` is unique in the taxonomy table, so the first match is the
only match). -/
def taxFor? (tax : List TaxonomyRow) (tag : String) : Option TaxonomyRow :=
  match tax with
  | [] => Option.none
  | t :: rest => if t.xbrl_tag = tag then some t else taxFor? rest tag

/-- The `WHERE` predicate of `search_line_items`: any of the four `LIKE`
columns matches; a null joined column never matches. -/
def searchWhere (r : LineItemRow) (t : Option TaxonomyRow) (term : String) : Bool :=
  likeMatch r.line_item_label term || likeMatch r.xbrl_tag term ||
    (match t with
     | some tr => likeMatch tr.standard_label term || likeMatch tr.common_aliases term
     | Option.none => false)

/-- The selected output row. -/
def mkSearchRow (r : LineItemRow) (t : Option TaxonomyRow) : SearchRow :=
  { company_name := r.company_name, ticker_symbol := r.ticker_symbol,
    line_item_label := r.line_item_label, xbrl_tag := r.xbrl_tag,
    value := r.value, filing_date := r.filing_date,
    period_end_date := r.period_end_date, form_type := r.form_type,
    sec_url := r.sec_url, filing_year := r.filing_year,
    standard_label := t.map (fun tr => tr.standard_label),
    docText := t.map (fun tr => tr.docText) }

/-- `ORDER BY f.filing_year DESC, f.company_name` as a strict
comes-before test. -/
def searchBefore (a b : SearchRow) : Bool :=
  b.filing_year < a.filing_year ||
    (a.filing_year == b.filing_year && strLtB a.company_name b.company_name)

/-- `DatabaseManager.search_line_items`: left-join, filter, distinct,
order, limit. -/
def search_line_items (items : List LineItemRow) (tax : List TaxonomyRow)
    (search_term : String) (limit : Nat) : List SearchRow :=
  let matched := (items.filter (fun r => searchWhere r (taxFor? tax r.xbrl_tag) search_term)).map
    (fun r => mkSearchRow r (taxFor? tax r.xbrl_tag))
  ((stableSortBy searchBefore (dedupBy id matched)).take limit)

/-- `calculate_score` inside `SearchEngine._rank_results`: 100 for an
exact (case-insensitive) label match else 50 for a label substring
match, plus 30 for a tag substring match, plus a 10/5 recency bonus. -/
def calculate_score (query : String) (row : SearchRow) : Int :=
  (if lowerStr query = lowerStr row.line_item_label then 100
   else if likeMatch row.line_item_label query then 50 else 0)
  + (if likeMatch row.xbrl_tag query then 30 else 0)
  + (if 2023 ≤ row.filing_year then 10 else if 2022 ≤ row.filing_year then 5 else 0)

/-- `SearchEngine._rank_results`: sort by descending relevance score. -/
def rank_results (rows : List SearchRow) (query : String) : List SearchRow :=
  stableSortBy (fun a b => calculate_score query b < calculate_score query a) rows

/-- The deduplication key of `smart_search`:
`drop_duplicates(subset=[company_name, xbrl_tag, filing_year])`. -/
def searchKey (r : SearchRow) : String × String × Int :=
  (r.company_name, r.xbrl_tag, r.filing_year)

/-- `SearchEngine.smart_search`: exact search; on zero matches, append
per-word searches (words longer than 2 characters, each with limit
`max_results // len(words)`); deduplicate and rank when non-empty;
return the first `max_results` rows. -/
def smart_search (items : List LineItemRow) (tax : List TaxonomyRow)
    (query : String) (max_results : Nat) : List SearchRow :=
  let results := search_line_items items tax query max_results
  let results :=
    if results.length = 0 then
      (pyWords query).foldl (fun acc w =>
        if 2 < w.length then
          acc ++ search_line_items items tax w (max_results / (pyWords query).length)
        else acc) results
    else results
  let results :=
    if 0 < results.length then rank_results (dedupBy searchKey results) query
    else results
  results.take max_results

/-! ## Production trend query (`ProductionDatabaseManager.get_trend_data`) -/

/-- A row of the production `financial_facts` table (the columns the
trend query reads). -/
structure FinFactRow where
  cik : String
  tag : String
  label : String
  value : ℚ
  unit : String
  end_date : String
  fiscal_year : Option Int
  fiscal_period : Option String
  form_type : String
  sec_url : String
deriving DecidableEq, Repr

/-- A row of the production `companies` table. -/
structure CompanyRow where
  cik : String
  name : String
  ticker : String
deriving DecidableEq, Repr

/-- An output row of the trend query. -/
structure TrendRow where
  cik : String
  company_name : String
  ticker : String
  tag : String
  label : String
  value : ℚ
  unit : String
  end_date : String
  fiscal_year : Option Int
  fiscal_period : Option String
  form_type : String
  sec_url : String
deriving DecidableEq, Repr

/-- The selected join row. -/
def mkTrendRow (f : FinFactRow) (c : CompanyRow) : TrendRow :=
  { cik := f.cik, company_name := c.name, ticker := c.ticker, tag := f.tag,
    label := f.label, value := f.value, unit := f.unit,
    end_date := f.end_date, fiscal_year := f.fiscal_year,
    fiscal_period := f.fiscal_period, form_type := f.form_type,
    sec_url := f.sec_url }

/-- `ORDER BY f.end_date DESC, c.name` as a strict comes-before test. -/
def trendBefore (a b : TrendRow) : Bool :=
  strLtB b.end_date a.end_date ||
    (a.end_date == b.end_date && strLtB a.company_name b.company_name)

/-- `ProductionDatabaseManager.get_trend_data`.  `companies = []` models
both Python `None` and an empty list (both falsy, disabling the ticker
filter and selecting the `periods * 10` limit); `form_types = []`
likewise disables the form filter; `periods = 0` is falsy and disables
the `LIMIT` clause. -/
def get_trend_data (factRows : List FinFactRow) (companyRows : List CompanyRow)
    (tag : String) (companies : List String) (form_types : List String)
    (periods : Nat) : List TrendRow :=
  let joined := factRows.flatMap (fun f =>
    (companyRows.filter (fun c => c.cik = f.cik)).map (mkTrendRow f))
  let rows := joined.filter (fun r =>
    r.tag = tag
      ∧ (form_types = [] ∨ r.form_type ∈ form_types)
      ∧ (companies = [] ∨ r.ticker ∈ companies))
  let sorted := stableSortBy trendBefore rows
  if periods ≠ 0 then
    sorted.take (if companies = [] then periods * 10 else periods * companies.length)
  else sorted

/-! ## Concrete fixtures used by counterexamples and witnesses -/

/-- A minimal parsed company document. -/
def docApple : RawDoc :=
  { entityName := some "Apple Inc.", cik := some "320193", facts := Option.none }

/-- A document carrying no fields at all (the shape of an empty dict). -/
def docEmpty : RawDoc :=
  { entityName := Option.none, cik := Option.none, facts := Option.none }

/-- An annual revenue fact with value 1. -/
def factRevA : CompanyFact :=
  { cik := "320193", company_name := "Apple Inc.", tag := "Revenues",
    label := "Total Revenue", description := "", value := 1, unit := "USD",
    end_date := "2023-09-30", form_type := "10-K", filed_date := "2023-11-02",
    accession_number := "A1", sec_url := "" }

/-- A second annual revenue fact with the same period end but value 2. -/
def factRevB : CompanyFact :=
  { cik := "320193", company_name := "Apple Inc.", tag := "Revenues",
    label := "Total Revenue", description := "", value := 2, unit := "USD",
    end_date := "2023-09-30", form_type := "10-K", filed_date := "2023-11-03",
    accession_number := "A2", sec_url := "" }

/-! ## C1 -/

/-- C1: the claim says a rate-limited fetch sleeps, retries exactly once,
and surfaces a second rate-limit response as a failure.  The code instead
calls itself recursively on every 429, so after two 429 answers it issues
a third request (and a fourth, ...) instead of failing: with the response
trace [429, 429, 200] the fetch still succeeds with the third answer, and
with [429, 429, 429, 200] with the fourth.  This contradicts the code's
own `# Retry once` comment; the claim describes the documented intent. -/
theorem C1_rate_limit_retry_unbounded :
    get_company_facts
      [FetchResponse.status 429, FetchResponse.status 429, FetchResponse.ok docApple]
      = some docApple
    ∧ get_company_facts
      [FetchResponse.status 429, FetchResponse.status 429, FetchResponse.status 429,
       FetchResponse.ok docApple]
      = some docApple :=
  ⟨rfl, rfl⟩

/-! ## C7 -/

/-- C7 counterexample: a not-found answer (HTTP 404) and a failure
(timeout) produce the same return value `none`, so a caller of
`get_company_facts` cannot tell not-found apart from failure, refuting
the claim that the fetch distinguishes three outcomes. -/
theorem C7_counterexample_notfound_indistinguishable :
    get_company_facts [FetchResponse.status 404]
      = get_company_facts [FetchResponse.timeout]
    ∧ get_company_facts [FetchResponse.status 404] = Option.none :=
  ⟨rfl, rfl⟩

/-- C7 amended: the fetch distinguishes only two outcomes by its return
value: success carries the parsed document, while not-found (404) and
every failure (unparsable body, unexpected status, timeout, network
error) all return the same `none`. -/
theorem C7_amended_success_or_none (rest : List FetchResponse) (d : RawDoc) (c : Nat) :
    get_company_facts (FetchResponse.ok d :: rest) = some d
    ∧ get_company_facts (FetchResponse.okBadJson :: rest) = Option.none
    ∧ get_company_facts (FetchResponse.status 404 :: rest) = Option.none
    ∧ (c ≠ 404 → c ≠ 429 → get_company_facts (FetchResponse.status c :: rest) = Option.none)
    ∧ get_company_facts (FetchResponse.timeout :: rest) = Option.none
    ∧ get_company_facts (FetchResponse.netError :: rest) = Option.none := by
  refine ⟨rfl, rfl, rfl, ?_, rfl, rfl⟩
  intro h1 h2
  simp [get_company_facts, h1, h2]

/-- C7 witness: the amended theorem applied to a concrete trace with an
unexpected status code 500. -/
theorem C7_amended_success_or_none_witness :
    (500 : Nat) ≠ 404 ∧ (500 : Nat) ≠ 429
    ∧ get_company_facts [FetchResponse.status 500] = Option.none :=
  ⟨by decide, by decide,
    (C7_amended_success_or_none [] docApple 500).2.2.2.1 (by decide) (by decide)⟩

/-! ## C9 -/

/-- C9: extraction at the public boundary is total on degenerate input:
a `None` document, and any document without a `facts` member (which
covers the empty dict), yield the empty fact list.  The embedding is a
total function, mirroring that the guard returns before any raising
operation. -/
theorem C9_degenerate_input_empty_output :
    extract_financial_facts Option.none = []
    ∧ ∀ d : RawDoc, d.facts = Option.none → extract_financial_facts (some d) = [] := by
  refine ⟨rfl, ?_⟩
  intro d h
  simp [extract_financial_facts, h]

/-- C9 witness: the theorem applied to the fieldless document. -/
theorem C9_degenerate_input_empty_output_witness :
    docEmpty.facts = Option.none ∧ extract_financial_facts (some docEmpty) = [] :=
  ⟨rfl, C9_degenerate_input_empty_output.2 docEmpty rfl⟩

/-! ## C10 -/

/-- The fact built from an entry with a recognized form and no `val`
member: the reported value defaults to 0. -/
theorem entryFact?_noval (cik name tag lbl desc u : String) (e : PeriodEntry)
    (hform : e.form.getD "" = "10-K" ∨ e.form.getD "" = "10-Q")
    (hval : e.val = Option.none) :
    entryFact? cik name tag lbl desc u e =
      some { cik := cik, company_name := name, tag := tag, label := lbl,
             description := desc, value := 0, unit := u,
             end_date := e.endDate.getD "", form_type := e.form.getD "",
             filed_date := e.filed.getD "", accession_number := e.accn.getD "",
             sec_url := if e.accn.getD "" = "" then ""
                        else build_sec_url cik (e.accn.getD "") } := by
  simp only [entryFact?, hval]
  rw [if_pos hform]
  rfl

/-- C10: a period entry with a recognized form type and no `val` field at
all is not skipped: `float(entry.get(val, 0))` converts the default 0,
so the tag processor emits a fact for it whose value is 0. -/
theorem C10_missing_val_defaults_to_zero (cik name tag u : String)
    (td : TagData) (es : List PeriodEntry) (e : PeriodEntry)
    (hu : (u, es) ∈ td.units) (he : e ∈ es)
    (hform : e.form = some "10-K" ∨ e.form = some "10-Q")
    (hval : e.val = Option.none) :
    ∃ f ∈ process_financial_tag cik name tag td,
      f.value = 0 ∧ f.end_date = e.endDate.getD "" ∧ f.form_type = e.form.getD "" := by
  have hft : e.form.getD "" = "10-K" ∨ e.form.getD "" = "10-Q" := by
    rcases hform with h | h <;> rw [h] <;> simp
  refine ⟨{ cik := cik, company_name := name, tag := tag,
            label := td.label.getD ((alistFind? key_financial_tags tag).getD tag),
            description := td.description.getD "", value := 0, unit := u,
            end_date := e.endDate.getD "", form_type := e.form.getD "",
            filed_date := e.filed.getD "", accession_number := e.accn.getD "",
            sec_url := if e.accn.getD "" = "" then ""
                       else build_sec_url cik (e.accn.getD "") },
          ?_, rfl, rfl, rfl⟩
  simp only [process_financial_tag]
  exact List.mem_flatMap.mpr ⟨(u, es), hu,
    List.mem_filterMap.mpr ⟨e, he, entryFact?_noval _ _ _ _ _ _ _ hft hval⟩⟩

/-- A period entry with a recognized form and no `val` member. -/
def entryNoVal : PeriodEntry :=
  { val := Option.none, endDate := some "2023-09-30", form := some "10-K",
    filed := some "2023-11-02", accn := some "A1" }

/-- Tag payload holding only the valueless entry. -/
def tdNoVal : TagData :=
  { label := some "Total Revenue", description := some "",
    units := [("USD", [entryNoVal])] }

/-- C10 witness: the theorem applied to a concrete valueless entry. -/
theorem C10_missing_val_defaults_to_zero_witness :
    (("USD", [entryNoVal]) ∈ tdNoVal.units ∧ entryNoVal ∈ [entryNoVal]
      ∧ entryNoVal.form = some "10-K" ∧ entryNoVal.val = Option.none)
    ∧ ∃ f ∈ process_financial_tag "320193" "Apple Inc." "Revenues" tdNoVal,
        f.value = 0 ∧ f.end_date = entryNoVal.endDate.getD ""
          ∧ f.form_type = entryNoVal.form.getD "" :=
  ⟨⟨by decide, by decide, rfl, rfl⟩,
    C10_missing_val_defaults_to_zero "320193" "Apple Inc." "Revenues" "USD"
      tdNoVal [entryNoVal] entryNoVal (by decide) (by decide) (Or.inl rfl) rfl⟩

/-! ## C2 counterexample -/

/-- C2 counterexample: two annual facts for the same tag share the period
end 2023-09-30; the snapshot keeps the one encountered first (value 1),
not the one encountered later (value 2), refuting the last-write-wins
tie-break of the claim. -/
theorem C2_counterexample_tie_keeps_first :
    alistFind? (get_latest_annual_data [factRevA, factRevB]) "Revenues" = some factRevA
    ∧ factRevA ≠ factRevB := by
  constructor
  · rfl
  · intro h
    exact absurd (congrArg CompanyFact.value h) (by decide)

/-! ## C2: latest annual snapshot -/

theorem strLtB_irrefl (a : String) : strLtB a a = false := by
  rw [strLtB]; exact decide_eq_false (lt_irrefl _)

theorem strLtB_negtrans {a b c : String}
    (h1 : strLtB a b = false) (h2 : strLtB b c = false) : strLtB a c = false := by
  rw [strLtB] at *
  apply decide_eq_false
  intro hac
  exact of_decide_eq_false h1 (lt_of_lt_of_le hac (le_of_not_lt (of_decide_eq_false h2)))

theorem strLtB_trans_not {c x f : String}
    (h1 : strLtB c x = true) (h2 : strLtB f x = false) : strLtB f c = false := by
  rw [strLtB] at *
  apply decide_eq_false
  intro hfc
  exact of_decide_eq_false h2 (lt_trans hfc (of_decide_eq_true h1))

/-- One step of the reference maximum: keep the current best unless the
new fact's period end is strictly later (so the first encountered wins
ties). -/
def maxByEndFirst (acc : Option CompanyFact) (f : CompanyFact) : Option CompanyFact :=
  match acc with
  | Option.none => some f
  | some c => if strLtB c.end_date f.end_date then some f else some c

/-- Reference projection written from the amended claim: among the
annual (10-K) facts carrying tag `t`, in input order, the entry with the
maximum period-end date, the first encountered winning ties. -/
def latestAnnualRef (facts : List CompanyFact) (t : String) : Option CompanyFact :=
  (facts.filter (fun f => decide (f.form_type = "10-K" ∧ f.tag = t))).foldl
    maxByEndFirst Option.none

/-- The per-tag shadow of `latestStep`. -/
def latestOptStep (t : String) (acc : Option CompanyFact) (f : CompanyFact) :
    Option CompanyFact :=
  if f.form_type = "10-K" ∧ f.tag = t then maxByEndFirst acc f else acc

theorem alistFind?_insert {α : Type} (d : List (String × α)) (k : String) (v : α)
    (t : String) :
    alistFind? (alistInsert d k v) t = if k = t then some v else alistFind? d t := by
  induction d with
  | nil => simp [alistInsert, alistFind?]
  | cons p rest ih =>
    obtain ⟨k', v'⟩ := p
    by_cases hk : k' = k
    · subst hk
      simp only [alistInsert, if_pos rfl, alistFind?]
      by_cases ht : k' = t <;> simp [ht]
    · simp only [alistInsert, if_neg hk, alistFind?]
      by_cases ht : k' = t
      · subst ht
        have : ¬ k = k' := fun h => hk h.symm
        simp [this]
      · simp [ht, ih]

theorem latestStep_find (d : List (String × CompanyFact)) (f : CompanyFact)
    (t : String) :
    alistFind? (latestStep d f) t = latestOptStep t (alistFind? d t) f := by
  unfold latestStep latestOptStep
  by_cases hK : f.form_type = "10-K"
  · cases hS : alistFind? d f.tag with
    | none =>
      by_cases ht : f.tag = t
      · subst ht
        simp [hK, hS, alistFind?_insert, maxByEndFirst]
      · have hc : ¬ (f.form_type = "10-K" ∧ f.tag = t) := fun h => ht h.2
        simp [hK, alistFind?_insert, ht, hc]
    | some cur =>
      by_cases hlt : strLtB cur.end_date f.end_date
      · by_cases ht : f.tag = t
        · subst ht
          simp [hK, hS, hlt, alistFind?_insert, maxByEndFirst]
        · have hc : ¬ (f.form_type = "10-K" ∧ f.tag = t) := fun h => ht h.2
          simp [hK, hlt, alistFind?_insert, ht, hc]
      · by_cases ht : f.tag = t
        · subst ht
          simp [hK, hS, hlt, maxByEndFirst]
        · have hc : ¬ (f.form_type = "10-K" ∧ f.tag = t) := fun h => ht h.2
          simp [hK, hlt, hc, ht]
  · have hc : ¬ (f.form_type = "10-K" ∧ f.tag = t) := fun h => hK h.1
    simp [hK, hc]

theorem foldl_latestStep_find (facts : List CompanyFact)
    (d : List (String × CompanyFact)) (t : String) :
    alistFind? (facts.foldl latestStep d) t
      = facts.foldl (latestOptStep t) (alistFind? d t) := by
  induction facts generalizing d with
  | nil => rfl
  | cons f fs ih =>
    simp only [List.foldl_cons]
    rw [ih, latestStep_find]

theorem foldl_optStep_filter (facts : List CompanyFact) (t : String)
    (acc : Option CompanyFact) :
    facts.foldl (latestOptStep t) acc
      = (facts.filter (fun f => decide (f.form_type = "10-K" ∧ f.tag = t))).foldl
          maxByEndFirst acc := by
  induction facts generalizing acc with
  | nil => rfl
  | cons f fs ih =>
    by_cases h : f.form_type = "10-K" ∧ f.tag = t
    · rw [List.foldl_cons, List.filter_cons, if_pos (by simpa using h), List.foldl_cons]
      rw [show latestOptStep t acc f = maxByEndFirst acc f from by
        simp [latestOptStep, h]]
      exact ih _
    · rw [List.foldl_cons, List.filter_cons, if_neg (by simpa using h)]
      rw [show latestOptStep t acc f = acc from by simp [latestOptStep, h]]
      exact ih _

theorem maxByEndFirst_fold_spec (l : List CompanyFact) :
    ∀ (acc : Option CompanyFact) (f : CompanyFact),
      l.foldl maxByEndFirst acc = some f →
      (f ∈ l ∨ acc = some f)
        ∧ (∀ g ∈ l, strLtB f.end_date g.end_date = false)
        ∧ (∀ c, acc = some c → strLtB f.end_date c.end_date = false) := by
  induction l with
  | nil =>
    intro acc f h
    refine ⟨Or.inr h, by simp, ?_⟩
    intro c hc
    rw [hc] at h
    cases h
    exact strLtB_irrefl _
  | cons x xs ih =>
    intro acc f h
    obtain ⟨h1, h2, h3⟩ := ih (maxByEndFirst acc x) f h
    have hax : strLtB f.end_date x.end_date = false := by
      cases acc with
      | none => exact h3 x rfl
      | some c =>
        by_cases hlt : strLtB c.end_date x.end_date
        · exact h3 x (by simp [maxByEndFirst, hlt])
        · have hfc := h3 c (by simp [maxByEndFirst, hlt])
          exact strLtB_negtrans hfc (by simpa using hlt)
    refine ⟨?_, ?_, ?_⟩
    · cases acc with
      | none =>
        rcases h1 with hin | hx
        · exact Or.inl (List.mem_cons_of_mem _ hin)
        · simp only [maxByEndFirst] at hx
          cases hx
          exact Or.inl (List.mem_cons_self _ _)
      | some c =>
        by_cases hlt : strLtB c.end_date x.end_date
        · simp only [maxByEndFirst, if_pos hlt] at h1
          rcases h1 with hin | hx
          · exact Or.inl (List.mem_cons_of_mem _ hin)
          · cases hx
            exact Or.inl (List.mem_cons_self _ _)
        · simp only [maxByEndFirst, if_neg hlt] at h1
          rcases h1 with hin | hx
          · exact Or.inl (List.mem_cons_of_mem _ hin)
          · exact Or.inr hx
    · intro g hg
      rcases List.mem_cons.mp hg with rfl | hin
      · exact hax
      · exact h2 g hin
    · intro c hc
      subst hc
      by_cases hlt : strLtB c.end_date x.end_date
      · exact strLtB_trans_not hlt (h3 x (by simp [maxByEndFirst, hlt]))
      · exact h3 c (by simp [maxByEndFirst, hlt])

/-- C2 amended: for every concept tag, the latest-annual-snapshot dict
holds the annual (10-K) entry with the maximum period-end date, and when
several annual entries with that tag share the maximal period end, the
one encountered FIRST in the input sequence wins (the update uses a
strict comparison), not the one encountered later as the claim states.
The entry stored for `t` equals the first-wins reference projection, is
itself an annual fact of the input with tag `t`, and no annual input
fact with tag `t` has a strictly later period end. -/
theorem C2_latest_annual_max_end_first_wins (facts : List CompanyFact) (t : String) :
    alistFind? (get_latest_annual_data facts) t = latestAnnualRef facts t
    ∧ ∀ f, alistFind? (get_latest_annual_data facts) t = some f →
        f ∈ facts ∧ f.form_type = "10-K" ∧ f.tag = t
          ∧ ∀ g ∈ facts, g.form_type = "10-K" → g.tag = t →
              strLtB f.end_date g.end_date = false := by
  have hmain : alistFind? (get_latest_annual_data facts) t = latestAnnualRef facts t := by
    unfold get_latest_annual_data latestAnnualRef
    rw [foldl_latestStep_find]
    exact foldl_optStep_filter facts t _
  refine ⟨hmain, ?_⟩
  intro f hf
  rw [hmain] at hf
  unfold latestAnnualRef at hf
  obtain ⟨h1, h2, _⟩ := maxByEndFirst_fold_spec _ _ _ hf
  rcases h1 with hin | hbad
  · have hin' := List.mem_filter.mp hin
    have hp := of_decide_eq_true hin'.2
    refine ⟨hin'.1, hp.1, hp.2, ?_⟩
    intro g hg hgf hgt
    exact h2 g (List.mem_filter.mpr ⟨hg, decide_eq_true ⟨hgf, hgt⟩⟩)
  · cases hbad

/-- C2 witness: the amended theorem applied to the two-fact tie fixture;
the snapshot stores the first fact and the tie-break inequality holds. -/
theorem C2_latest_annual_max_end_first_wins_witness :
    alistFind? (get_latest_annual_data [factRevA, factRevB]) "Revenues"
      = latestAnnualRef [factRevA, factRevB] "Revenues"
    ∧ strLtB factRevA.end_date factRevB.end_date = false :=
  ⟨(C2_latest_annual_max_end_first_wins [factRevA, factRevB] "Revenues").1,
    ((C2_latest_annual_max_end_first_wins [factRevA, factRevB] "Revenues").2
      factRevA (by decide)).2.2.2 factRevB (by decide) rfl rfl⟩

/-! ## C8 and C6: extractor robustness and output discipline -/

/-- An entry whose `val` is present but does not convert to a number is
skipped: the entry loop emits nothing for it. -/
theorem entryFact?_badval (cik name tag lbl desc u : String) (e : PeriodEntry)
    (v : PyVal) (hv : e.val = some v) (hbad : pyFloat? v = Option.none) :
    entryFact? cik name tag lbl desc u e = Option.none := by
  simp only [entryFact?, hv, Option.getD_some]
  by_cases hc : e.form.getD "" = "10-K" ∨ e.form.getD "" = "10-Q"
  · rw [if_pos hc, hbad]
  · rw [if_neg hc]

/-- Removing one non-convertible entry from a unit's entry list does not
change what the tag processor extracts. -/
theorem process_financial_tag_skips_badval (cik name tag : String)
    (lbl desc : Option String) (upre upost : List (String × List PeriodEntry))
    (u : String) (l1 l2 : List PeriodEntry) (e : PeriodEntry) (v : PyVal)
    (hv : e.val = some v) (hbad : pyFloat? v = Option.none) :
    process_financial_tag cik name tag
        ⟨lbl, desc, upre ++ (u, l1 ++ e :: l2) :: upost⟩
      = process_financial_tag cik name tag
        ⟨lbl, desc, upre ++ (u, l1 ++ l2) :: upost⟩ := by
  have hskip : ∀ lbl2 desc2 : String,
      entryFact? cik name tag lbl2 desc2 u e = Option.none :=
    fun lbl2 desc2 => entryFact?_badval cik name tag lbl2 desc2 u e v hv hbad
  simp [process_financial_tag, List.filterMap_append, hskip]

/-- C8: a period entry whose `val` field is present but non-numeric is
skipped without aborting: extraction of the whole document with the bad
entry present equals extraction with the bad entry removed, so every
sibling entry of the same tag and every other tag is still extracted.
(The embedding is total: the `ValueError`/`TypeError` of the conversion
is caught by the entry loop, which is what `entryFact?` models.) -/
theorem C8_bad_value_entry_skipped (en cik0 : Option String)
    (pre post deis : List (String × TagData)) (tagName : String)
    (lbl desc : Option String) (upre upost : List (String × List PeriodEntry))
    (u : String) (l1 l2 : List PeriodEntry) (e : PeriodEntry) (v : PyVal)
    (hv : e.val = some v) (hbad : pyFloat? v = Option.none) :
    extract_financial_facts (some
        ⟨en, cik0, some ⟨pre ++ (tagName, ⟨lbl, desc, upre ++ (u, l1 ++ e :: l2) :: upost⟩) :: post, deis⟩⟩)
      = extract_financial_facts (some
        ⟨en, cik0, some ⟨pre ++ (tagName, ⟨lbl, desc, upre ++ (u, l1 ++ l2) :: upost⟩) :: post, deis⟩⟩) := by
  simp only [extract_financial_facts, List.flatMap_append, List.flatMap_cons]
  by_cases hc : (alistFind? key_financial_tags tagName).isSome
  · rw [if_pos hc, if_pos hc,
      process_financial_tag_skips_badval (cik0.getD "") (en.getD "Unknown Company")
        tagName lbl desc upre upost u l1 l2 e v hv hbad]
  · rw [if_neg hc, if_neg hc]

/-- A convertible annual entry. -/
def entryGood1 : PeriodEntry :=
  { val := some (PyVal.num 5), endDate := some "2023-09-30", form := some "10-K",
    filed := some "2023-11-02", accn := Option.none }

/-- A convertible quarterly entry. -/
def entryGood2 : PeriodEntry :=
  { val := some (PyVal.num 7), endDate := some "2023-06-30", form := some "10-Q",
    filed := Option.none, accn := Option.none }

/-- An entry whose `val` is the non-numeric string N/A. -/
def entryBad : PeriodEntry :=
  { val := some (PyVal.str "N/A"), endDate := some "2021-09-30", form := some "10-K",
    filed := Option.none, accn := Option.none }

/-- Document whose revenue tag carries the bad entry between two good ones. -/
def docC8bad : Option RawDoc :=
  some ⟨some "Apple Inc.", some "320193",
    some ⟨[("Revenues", ⟨some "Total Revenue", some "",
      [("USD", [entryGood1, entryBad, entryGood2])]⟩)], []⟩⟩

/-- The same document without the bad entry. -/
def docC8good : Option RawDoc :=
  some ⟨some "Apple Inc.", some "320193",
    some ⟨[("Revenues", ⟨some "Total Revenue", some "",
      [("USD", [entryGood1, entryGood2])]⟩)], []⟩⟩

/-- C8 witness: the theorem applied at a concrete document; both sibling
entries are still extracted (two facts), and the bad entry changes
nothing. -/
theorem C8_bad_value_entry_skipped_witness :
    (entryBad.val = some (PyVal.str "N/A") ∧ pyFloat? (PyVal.str "N/A") = Option.none)
    ∧ extract_financial_facts docC8bad = extract_financial_facts docC8good
    ∧ (extract_financial_facts docC8bad).length = 2 :=
  ⟨⟨rfl, by decide⟩,
   C8_bad_value_entry_skipped (some "Apple Inc.") (some "320193") [] [] []
     "Revenues" (some "Total Revenue") (some "") [] [] "USD"
     [entryGood1] [entryGood2] entryBad (PyVal.str "N/A") rfl (by decide),
   by decide⟩

/-- The extraction allow-list: the curated financial tags plus the two
entity-metadata tags. -/
def allowed_tags : List String := key_financial_tags.map Prod.fst ++ dei_tags

/-- Any fact produced by the entry loop carries the processed tag and a
recognized form type. -/
theorem entryFact?_inv {cik name tag lbl desc u : String} {e : PeriodEntry}
    {f : CompanyFact} (h : entryFact? cik name tag lbl desc u e = some f) :
    f.tag = tag ∧ (f.form_type = "10-K" ∨ f.form_type = "10-Q") := by
  unfold entryFact? at h
  by_cases hc : e.form.getD "" = "10-K" ∨ e.form.getD "" = "10-Q"
  · rw [if_pos hc] at h
    cases hv : pyFloat? (e.val.getD (PyVal.num 0)) with
    | none => rw [hv] at h; cases h
    | some q =>
      rw [hv] at h
      cases h
      exact ⟨rfl, hc⟩
  · rw [if_neg hc] at h
    cases h

/-- Any fact produced by the tag processor carries the processed tag and
a recognized form type. -/
theorem process_financial_tag_inv {cik name tag : String} {td : TagData}
    {f : CompanyFact} (h : f ∈ process_financial_tag cik name tag td) :
    f.tag = tag ∧ (f.form_type = "10-K" ∨ f.form_type = "10-Q") := by
  simp only [process_financial_tag] at h
  obtain ⟨ue, _, hf⟩ := List.mem_flatMap.mp h
  obtain ⟨e, _, heq⟩ := List.mem_filterMap.mp hf
  exact entryFact?_inv heq

/-- A successful dict lookup means the key is among the dict's keys. -/
theorem alistFind?_isSome_mem {α : Type} (l : List (String × α)) (k : String)
    (h : (alistFind? l k).isSome) : k ∈ l.map Prod.fst := by
  induction l with
  | nil => simp [alistFind?] at h
  | cons p rest ih =>
    obtain ⟨k', v⟩ := p
    by_cases hk : k' = k
    · simp [hk]
    · simp only [alistFind?, if_neg hk] at h
      simp [ih h]

/-- C6: every fact emitted by extraction has a concept tag in the fixed
allow-list (the curated financial tags plus the two entity-metadata
tags) and a form type that is 10-K or 10-Q; nothing else is ever
emitted. -/
theorem C6_extracted_tags_and_forms (doc : Option RawDoc) (f : CompanyFact)
    (hf : f ∈ extract_financial_facts doc) :
    f.tag ∈ allowed_tags ∧ (f.form_type = "10-K" ∨ f.form_type = "10-Q") := by
  cases doc with
  | none => cases hf
  | some d =>
    obtain ⟨en, ck, fo⟩ := d
    cases fo with
    | none => cases hf
    | some fs =>
      simp only [extract_financial_facts] at hf
      rcases List.mem_append.mp hf with hg | hdei
      · obtain ⟨⟨tg, td⟩, _, hin⟩ := List.mem_flatMap.mp hg
        dsimp only at hin
        by_cases hsome : (alistFind? key_financial_tags tg).isSome
        · rw [if_pos hsome] at hin
          obtain ⟨htag, hform⟩ := process_financial_tag_inv hin
          refine ⟨?_, hform⟩
          rw [htag]
          exact List.mem_append_left _ (alistFind?_isSome_mem _ _ hsome)
        · rw [if_neg hsome] at hin
          cases hin
      · obtain ⟨⟨tg, td⟩, _, hin⟩ := List.mem_flatMap.mp hdei
        dsimp only at hin
        by_cases hmem : tg ∈ dei_tags
        · rw [if_pos hmem] at hin
          obtain ⟨htag, hform⟩ := process_financial_tag_inv hin
          refine ⟨?_, hform⟩
          rw [htag]
          exact List.mem_append_right _ hmem
        · rw [if_neg hmem] at hin
          cases hin

/-- The fact extracted from `entryGood1` in `docC8good`. -/
def factC6 : CompanyFact :=
  { cik := "320193", company_name := "Apple Inc.", tag := "Revenues",
    label := "Total Revenue", description := "", value := 5, unit := "USD",
    end_date := "2023-09-30", form_type := "10-K", filed_date := "2023-11-02",
    accession_number := "", sec_url := "" }

/-- C6 witness: the theorem applied to a concrete document and fact. -/
theorem C6_extracted_tags_and_forms_witness :
    factC6 ∈ extract_financial_facts docC8good
    ∧ factC6.tag ∈ allowed_tags
    ∧ (factC6.form_type = "10-K" ∨ factC6.form_type = "10-Q") :=
  ⟨by decide, C6_extracted_tags_and_forms docC8good factC6 (by decide)⟩

/-! ## C5: idempotence of the batch upsert -/

/-- The value the LAST pair for key `k` carries, if any (the final state
of a key after a left-to-right sequence of writes). -/
def lookupLastV {κ ν : Type} [DecidableEq κ] : List (κ × ν) → κ → Option ν
  | [], _ => Option.none
  | p :: rest, k =>
    match lookupLastV rest k with
    | some v => some v
    | Option.none => if p.1 = k then some p.2 else Option.none

theorem tableUpsertList_apply {κ ν : Type} [DecidableEq κ] (ps : List (κ × ν))
    (t : Table κ ν) (k : κ) :
    tableUpsertList t ps k =
      match lookupLastV ps k with
      | some v => some v
      | Option.none => t k := by
  induction ps generalizing t with
  | nil => rfl
  | cons p rest ih =>
    show tableUpsertList (tableUpsert t p.1 p.2) rest k = _
    rw [ih]
    cases hl : lookupLastV rest k with
    | some v => simp [lookupLastV, hl]
    | none =>
      simp only [lookupLastV, hl]
      by_cases hk : p.1 = k
      · subst hk
        simp [tableUpsert]
      · have hk' : ¬ k = p.1 := fun h => hk h.symm
        simp [tableUpsert, hk, hk']

theorem tableUpsertList_idem {κ ν : Type} [DecidableEq κ] (t : Table κ ν)
    (ps : List (κ × ν)) :
    tableUpsertList (tableUpsertList t ps) ps = tableUpsertList t ps := by
  funext k
  rw [tableUpsertList_apply, tableUpsertList_apply]
  cases lookupLastV ps k <;> rfl

theorem tableUpsertList_append {κ ν : Type} [DecidableEq κ] (t : Table κ ν)
    (xs ys : List (κ × ν)) :
    tableUpsertList t (xs ++ ys) = tableUpsertList (tableUpsertList t xs) ys := by
  simp [tableUpsertList, List.foldl_append]

/-- Two store states with the same tables are the same state. -/
theorem storeEq {s1 s2 : Store} (hc : s1.companies = s2.companies)
    (hf : s1.facts = s2.facts) : s1 = s2 := by
  cases s1
  cases s2
  cases hc
  cases hf
  rfl

theorem store_foldl_facts (b : List CompanyFact) (ciks : List String) (s : Store) :
    (ciks.foldl (storeCompanyStep b) s).facts
      = tableUpsertList s.facts
          (ciks.flatMap (fun c => (cikGroup b c).map (fun f => (factKey f, factCols f)))) := by
  induction ciks generalizing s with
  | nil => rfl
  | cons c cs ih =>
    rw [List.foldl_cons, ih, List.flatMap_cons, tableUpsertList_append]
    rfl

theorem store_foldl_companies (b : List CompanyFact) (ciks : List String) (s : Store) :
    (ciks.foldl (storeCompanyStep b) s).companies
      = tableUpsertList s.companies (ciks.map (fun c => (c, groupName b c))) := by
  induction ciks generalizing s with
  | nil => rfl
  | cons c cs ih =>
    rw [List.foldl_cons, ih, List.map_cons]
    rfl

/-- C5: upserting the same fact batch twice leaves the store in exactly
the same state as upserting it once: each write is keyed by the
composite natural key (cik, tag, end date, form type, accession) via
INSERT OR REPLACE, so the second pass rewrites every row with the values
it already holds.  Equality of states subsumes both the row count and
every field value (timestamps and autoincrement ids, pure bookkeeping,
are outside the modelled state). -/
theorem C5_upsert_idempotent (s : Store) (b : List CompanyFact) :
    store_company_facts (store_company_facts s b) b = store_company_facts s b := by
  by_cases hb : b = []
  · subst hb
    rfl
  · have h2 : ∀ s' : Store,
        store_company_facts s' b = (cikOrder b).foldl (storeCompanyStep b) s' := by
      intro s'
      unfold store_company_facts
      rw [if_neg hb]
    rw [h2 s]
    rw [h2 ((cikOrder b).foldl (storeCompanyStep b) s)]
    apply storeEq
    · simp only [store_foldl_companies]
      exact tableUpsertList_idem _ _
    · simp only [store_foldl_facts]
      exact tableUpsertList_idem _ _

/-! ## C3: fallback word search -/

/-- The fallback pipeline written from the amended claim: when the exact
search is empty, each word of the query longer than 2 characters is
searched with the PER-WORD limit `limit / (number of words)` — so
truncation already happens inside each word search, before the union —
the per-word results are unioned in word order, deduplicated by
(company, tag, fiscal year) keeping first occurrences, re-ranked against
the original query by the engine's score (100 exact label / 50 label
substring, +30 tag substring, +10/+5 recency), and only then cut to the
caller's limit. -/
def smart_search_amended (items : List LineItemRow) (tax : List TaxonomyRow)
    (query : String) (limit : Nat) : List SearchRow :=
  let exact := search_line_items items tax query limit
  let pool :=
    if exact.isEmpty then
      ((pyWords query).filter (fun w => decide (2 < w.length))).flatMap
        (fun w => search_line_items items tax w (limit / (pyWords query).length))
    else exact
  (rank_results (dedupBy searchKey pool) query).take limit

theorem smart_fold_eq (items : List LineItemRow) (tax : List TaxonomyRow)
    (q : String) (limit : Nat) (ws : List String) (acc : List SearchRow) :
    ws.foldl (fun acc w =>
        if 2 < w.length then
          acc ++ search_line_items items tax w (limit / (pyWords q).length)
        else acc) acc
      = acc ++ (ws.filter (fun w => decide (2 < w.length))).flatMap
          (fun w => search_line_items items tax w (limit / (pyWords q).length)) := by
  induction ws generalizing acc with
  | nil => simp
  | cons w ws ih =>
    by_cases hw : 2 < w.length
    · rw [List.foldl_cons]
      simp only [if_pos hw]
      rw [ih, List.filter_cons, if_pos (by simpa using hw), List.flatMap_cons,
        List.append_assoc]
    · rw [List.foldl_cons]
      simp only [if_neg hw]
      rw [ih, List.filter_cons, if_neg (by simpa using hw)]

/-- C3 amended: the engine's smart search equals the amended pipeline
for every database state, query and limit.  Relative to the claim, the
code differs in two ways the pipeline records: each fallback word search
is truncated to `limit / (number of words)` before the union and
deduplication (so truncation can happen before deduplication), and the
re-ranking uses the engine's additive 100/50/30 + recency score, not the
100/80/60/40/20 table. -/
theorem C3_fallback_equals_amended_pipeline (items : List LineItemRow)
    (tax : List TaxonomyRow) (query : String) (limit : Nat) :
    smart_search items tax query limit = smart_search_amended items tax query limit := by
  simp only [smart_search, smart_search_amended]
  by_cases he : search_line_items items tax query limit = []
  · rw [he]
    simp only [List.length_nil, List.isEmpty_nil, if_pos rfl, if_true]
    rw [smart_fold_eq, List.nil_append]
    set pool := ((pyWords query).filter (fun w => decide (2 < w.length))).flatMap
      (fun w => search_line_items items tax w (limit / (pyWords query).length)) with hpool
    by_cases hp : pool = []
    · rw [hp]
      simp [rank_results, stableSortBy, dedupBy, dedupBy.go]
    · rw [if_pos (List.length_pos.mpr hp)]
  · have hie : (search_line_items items tax query limit).isEmpty = false := by
      cases hcase : search_line_items items tax query limit with
      | nil => exact absurd hcase he
      | cons a l => rfl
    have hlen : ¬ ((search_line_items items tax query limit).length = 0) :=
      fun h => he (List.length_eq_zero.mp h)
    have hbool : ¬ ((search_line_items items tax query limit).isEmpty = true) :=
      fun h => by rw [hie] at h; cases h
    rw [if_neg hlen, if_neg hbool, if_pos (List.length_pos.mpr he)]

/-- A stored line item labelled alpha. -/
def rowAlpha : LineItemRow :=
  { company_name := "Acme", ticker_symbol := "ACME", line_item_label := "alpha",
    xbrl_tag := "TagX", value := 5, filing_date := "2023-01-01",
    period_end_date := "2022-12-31", form_type := "10-K", sec_url := "",
    filing_year := 2023 }

/-- C3 counterexample: with one stored row labelled alpha, the query
"alpha beta" with limit 1 has no exact match, and the word alpha does
match the row — yet the fallback returns nothing, because each per-word
search is truncated to `1 // 2 = 0` rows BEFORE the union and
deduplication.  Under the claim (truncate only after deduplication and
ranking, never before) the result would contain the matching row. -/
theorem C3_counterexample_truncated_before_union :
    smart_search [rowAlpha] [] "alpha beta" 1 = []
    ∧ search_line_items [rowAlpha] [] "alpha beta" 1 = []
    ∧ search_line_items [rowAlpha] [] "alpha" 1 = [mkSearchRow rowAlpha Option.none] :=
  ⟨by decide, by decide, by decide⟩

/-! ## C4: production trend query -/

theorem insertSorted_mem {α : Type} (before : α → α → Bool) (x y : α) (l : List α) :
    y ∈ insertSorted before x l ↔ y = x ∨ y ∈ l := by
  induction l with
  | nil => simp [insertSorted]
  | cons z zs ih =>
    by_cases h : before x z
    · simp [insertSorted, h]
    · simp only [insertSorted, if_neg h, List.mem_cons, ih]
      tauto

theorem foldl_insertSorted_mem {α : Type} (before : α → α → Bool) (l : List α) :
    ∀ (acc : List α) (y : α),
      y ∈ l.foldl (fun acc x => insertSorted before x acc) acc ↔ y ∈ acc ∨ y ∈ l := by
  induction l with
  | nil => simp
  | cons x xs ih =>
    intro acc y
    rw [List.foldl_cons, ih, insertSorted_mem]
    simp only [List.mem_cons]
    tauto

theorem stableSortBy_mem {α : Type} (before : α → α → Bool) (l : List α) (y : α) :
    y ∈ stableSortBy before l ↔ y ∈ l := by
  rw [stableSortBy, foldl_insertSorted_mem]
  simp

theorem insertSorted_pairwise {α : Type} (before : α → α → Bool)
    (htrans : ∀ a b c, before a b = true → before b c = true → before a c = true)
    (hasym : ∀ a b, before a b = true → before b a = false)
    (x : α) (l : List α) (hl : l.Pairwise (fun a b => before b a = false)) :
    (insertSorted before x l).Pairwise (fun a b => before b a = false) := by
  induction l with
  | nil => simp [insertSorted]
  | cons y ys ih =>
    rcases List.pairwise_cons.mp hl with ⟨hy, hys⟩
    by_cases h : before x y
    · simp only [insertSorted, if_pos h]
      refine List.pairwise_cons.mpr ⟨?_, hl⟩
      intro z hz
      rcases List.mem_cons.mp hz with rfl | hzys
      · exact hasym x z h
      · cases hzx : before z x with
        | false => rfl
        | true =>
          have hzy := htrans z x y hzx h
          rw [hy z hzys] at hzy
          exact Bool.noConfusion hzy
    · have hfalse : before x y = false := by
        revert h
        cases before x y <;> simp
      simp only [insertSorted, if_neg h]
      refine List.pairwise_cons.mpr ⟨?_, ih hys⟩
      intro z hz
      rcases (insertSorted_mem before x z ys).mp hz with rfl | hzys
      · exact hfalse
      · exact hy z hzys

theorem foldl_insertSorted_pairwise {α : Type} (before : α → α → Bool)
    (htrans : ∀ a b c, before a b = true → before b c = true → before a c = true)
    (hasym : ∀ a b, before a b = true → before b a = false) (l : List α) :
    ∀ acc : List α, acc.Pairwise (fun a b => before b a = false) →
      (l.foldl (fun acc x => insertSorted before x acc) acc).Pairwise
        (fun a b => before b a = false) := by
  induction l with
  | nil => intro acc h; exact h
  | cons x xs ih =>
    intro acc h
    rw [List.foldl_cons]
    exact ih _ (insertSorted_pairwise before htrans hasym x acc h)

theorem stableSortBy_pairwise {α : Type} (before : α → α → Bool)
    (htrans : ∀ a b c, before a b = true → before b c = true → before a c = true)
    (hasym : ∀ a b, before a b = true → before b a = false) (l : List α) :
    (stableSortBy before l).Pairwise (fun a b => before b a = false) :=
  foldl_insertSorted_pairwise before htrans hasym l [] List.Pairwise.nil

theorem trendBefore_iff (a b : TrendRow) :
    trendBefore a b = true ↔
      (b.end_date.data < a.end_date.data
        ∨ (a.end_date = b.end_date ∧ a.company_name.data < b.company_name.data)) := by
  simp [trendBefore, strLtB]

theorem trendBefore_trans (a b c : TrendRow)
    (h1 : trendBefore a b = true) (h2 : trendBefore b c = true) :
    trendBefore a c = true := by
  rw [trendBefore_iff] at h1 h2 ⊢
  rcases h1 with h1 | ⟨he1, hn1⟩
  · rcases h2 with h2 | ⟨he2, hn2⟩
    · exact Or.inl (lt_trans h2 h1)
    · refine Or.inl ?_
      rw [← congrArg String.data he2]
      exact h1
  · rcases h2 with h2 | ⟨he2, hn2⟩
    · refine Or.inl ?_
      rw [congrArg String.data he1]
      exact h2
    · exact Or.inr ⟨he1.trans he2, lt_trans hn1 hn2⟩

theorem trendBefore_asym (a b : TrendRow) (h : trendBefore a b = true) :
    trendBefore b a = false := by
  rw [trendBefore_iff] at h
  cases habs : trendBefore b a with
  | false => rfl
  | true =>
    exfalso
    have h2 := (trendBefore_iff b a).mp habs
    rcases h with h | ⟨he, hn⟩ <;> rcases h2 with h2 | ⟨he2, hn2⟩
    · exact lt_asymm h h2
    · rw [congrArg String.data he2] at h
      exact lt_irrefl _ h
    · rw [congrArg String.data he] at h2
      exact lt_irrefl _ h2
    · exact lt_asymm hn hn2

/-- Apple in the production `companies` table. -/
def aaplCo : CompanyRow := { cik := "0000320193", name := "Apple Inc.", ticker := "AAPL" }

/-- Apple's fiscal-2022 revenue fact row. -/
def rev22 : FinFactRow :=
  { cik := "0000320193", tag := "Revenues", label := "Total Revenue",
    value := 365817000000, unit := "USD", end_date := "2022-09-30",
    fiscal_year := some 2022, fiscal_period := Option.none,
    form_type := "10-K", sec_url := "" }

/-- Apple's fiscal-2023 revenue fact row. -/
def rev23 : FinFactRow :=
  { cik := "0000320193", tag := "Revenues", label := "Total Revenue",
    value := 394328000000, unit := "USD", end_date := "2023-09-30",
    fiscal_year := some 2023, fiscal_period := Option.none,
    form_type := "10-K", sec_url := "" }

/-- C4 counterexample: with exactly the facts of the claim's example
(AAPL Revenues, fiscal 2022 and 2023, 10-K), the trend query returns two
rows ordered 2023 FIRST and 2022 second — period-end date descending —
not 2022 then 2023 as the claim states; no averaging or per-(company,
fiscal year) grouping takes place. -/
theorem C4_counterexample_descending_order :
    (get_trend_data [rev22, rev23] [aaplCo] "Revenues" ["AAPL"] ["10-K"] 10).map
        (fun r => r.fiscal_year) = [some 2023, some 2022]
    ∧ [some (2023 : Int), some 2022] ≠ [some 2022, some 2023] :=
  ⟨by decide, by decide⟩

/-- C4 amended: the trend query returns one output row per stored fact
joined to its company row — values are returned raw, with no averaging
and no (company, fiscal year) grouping — filtered by tag, by form type
when a form filter is given, and by ticker when a company filter is
given; rows are ordered by period-end date DESCENDING, then company
name; the `LIMIT` is `periods * (number of companies)` with a company
filter and `periods * 10` without one, and is dropped when `periods` is
0.  In particular the claim's AAPL example yields exactly the 2023 row
followed by the 2022 row. -/
theorem C4_trend_rows_amended :
    (∀ (factRows : List FinFactRow) (companyRows : List CompanyRow)
       (tag : String) (companies form_types : List String) (periods : Nat),
      (get_trend_data factRows companyRows tag companies form_types periods).Pairwise
        (fun a b => trendBefore b a = false)
      ∧ (∀ r ∈ get_trend_data factRows companyRows tag companies form_types periods,
          ∃ f ∈ factRows, ∃ c ∈ companyRows,
            r = mkTrendRow f c ∧ c.cik = f.cik ∧ f.tag = tag
              ∧ (form_types = [] ∨ f.form_type ∈ form_types)
              ∧ (companies = [] ∨ c.ticker ∈ companies))
      ∧ (periods = 0 → ∀ f ∈ factRows, ∀ c ∈ companyRows,
            c.cik = f.cik → f.tag = tag →
            (form_types = [] ∨ f.form_type ∈ form_types) →
            (companies = [] ∨ c.ticker ∈ companies) →
            mkTrendRow f c ∈ get_trend_data factRows companyRows tag companies form_types periods))
    ∧ get_trend_data [rev22, rev23] [aaplCo] "Revenues" ["AAPL"] ["10-K"] 10
        = [mkTrendRow rev23 aaplCo, mkTrendRow rev22 aaplCo] := by
  constructor
  · intro factRows companyRows tag companies form_types periods
    simp only [get_trend_data]
    set joined := factRows.flatMap (fun f =>
      (companyRows.filter (fun c => decide (c.cik = f.cik))).map (mkTrendRow f)) with hjoined
    set rows := joined.filter (fun r => decide (r.tag = tag
      ∧ (form_types = [] ∨ r.form_type ∈ form_types)
      ∧ (companies = [] ∨ r.ticker ∈ companies))) with hrows
    have hsorted : (stableSortBy trendBefore rows).Pairwise
        (fun a b => trendBefore b a = false) :=
      stableSortBy_pairwise trendBefore trendBefore_trans trendBefore_asym rows
    have hmemrows : ∀ r ∈ rows,
        ∃ f ∈ factRows, ∃ c ∈ companyRows,
          r = mkTrendRow f c ∧ c.cik = f.cik ∧ f.tag = tag
            ∧ (form_types = [] ∨ f.form_type ∈ form_types)
            ∧ (companies = [] ∨ c.ticker ∈ companies) := by
      intro r hr
      rw [hrows] at hr
      obtain ⟨hrj, hcond⟩ := List.mem_filter.mp hr
      obtain ⟨f, hf, hrm⟩ := List.mem_flatMap.mp (hjoined ▸ hrj)
      obtain ⟨c, hcf, hrc⟩ := List.mem_map.mp hrm
      obtain ⟨hc, hcik⟩ := List.mem_filter.mp hcf
      have hcond' := of_decide_eq_true hcond
      subst hrc
      exact ⟨f, hf, c, hc, rfl, of_decide_eq_true hcik, hcond'.1,
        hcond'.2.1, hcond'.2.2⟩
    refine ⟨?_, ?_, ?_⟩
    · by_cases hp : periods ≠ 0
      · rw [if_pos hp]
        exact List.Pairwise.sublist (List.take_sublist _ _) hsorted
      · rw [if_neg hp]
        exact hsorted
    · intro r hr
      have hrs : r ∈ stableSortBy trendBefore rows := by
        by_cases hp : periods ≠ 0
        · rw [if_pos hp] at hr
          exact List.take_subset _ _ hr
        · rw [if_neg hp] at hr
          exact hr
      exact hmemrows r ((stableSortBy_mem trendBefore rows r).mp hrs)
    · intro hp f hf c hc hcik htag hform hcomp
      rw [if_neg (by simp [hp])]
      rw [stableSortBy_mem, hrows]
      refine List.mem_filter.mpr ⟨?_, ?_⟩
      · rw [hjoined]
        exact List.mem_flatMap.mpr ⟨f, hf,
          List.mem_map.mpr ⟨c, List.mem_filter.mpr ⟨hc, decide_eq_true hcik⟩, rfl⟩⟩
      · exact decide_eq_true ⟨htag, hform, hcomp⟩
  · decide

/-- C4 witness: the amended theorem's row characterization applied to
the concrete example database and its first returned row. -/
theorem C4_trend_rows_amended_witness :
    mkTrendRow rev23 aaplCo
      ∈ get_trend_data [rev22, rev23] [aaplCo] "Revenues" ["AAPL"] ["10-K"] 10
    ∧ ∃ f ∈ [rev22, rev23], ∃ c ∈ [aaplCo],
        mkTrendRow rev23 aaplCo = mkTrendRow f c ∧ c.cik = f.cik
          ∧ f.tag = "Revenues"
          ∧ ((["10-K"] : List String) = [] ∨ f.form_type ∈ ["10-K"])
          ∧ ((["AAPL"] : List String) = [] ∨ c.ticker ∈ ["AAPL"]) :=
  ⟨by decide,
    (C4_trend_rows_amended.1 [rev22, rev23] [aaplCo] "Revenues" ["AAPL"] ["10-K"] 10).2.1
      (mkTrendRow rev23 aaplCo) (by decide)⟩
